import Mathlib

/-!
# Velib dashboard: station list, nearest stations and hourly averages

A shallow embedding of `static/app.js` (and of `old_files/static/app.js` where the two differ)
together with the properties of its station state and geospatial query logic.

Conventions of the embedding.
* A JavaScript number that may be `undefined` or `NaN` is an `Option`: `none` stands for both,
  since every arithmetic use coerces `undefined` to `NaN`.  Finite numbers are exact
  (integers for counts, rationals for coordinates, reals for distances): rounding of doubles
  is not modelled.
* Globals and DOM inputs that a function reads are passed as arguments; the value a function
  computes for the renderer is returned.
* Host functions whose result depends on the locale or the time zone
  (`toLowerCase`, `localeCompare`, the local time-zone adjustment) are arguments.
-/

namespace Velib

/-! ## Data -/

/-- One entry of `s.history`: a time value in milliseconds since the epoch and the two counts
read by `computeGlobalHourlyAverage`. -/
structure HistorySample where
  timestamp : Int
  num_bikes_available : Int
  num_docks_available : Int
  deriving DecidableEq, Repr

/-- One element of `stationsData`.  `station_id` is a non-negative integer as in the Velib feed;
the property key it is coerced to in `uniqueStationsMap[s.station_id]` is identified with it.
Coordinates and counts may be missing. -/
structure Station where
  station_id : Nat
  name : String
  lat : Option ℚ := none
  lon : Option ℚ := none
  num_bikes_available : Option Int := none
  num_docks_available : Option Int := none
  history : Option (List HistorySample) := none
  deriving DecidableEq, Repr

/-! ## JavaScript objects and arrays -/

/-- An ordinary object used as a map: its own properties, oldest first.  Keys are the integers
whose decimal numeral is the property name. -/
abbrev JsObject (V : Type) := List (Nat × V)

/-- Reading `o[k]`: `none` is `undefined`. -/
def JsObject.get {V : Type} (o : JsObject V) (k : Nat) : Option V :=
  match o with
  | [] => none
  | (k', v) :: rest => if k' = k then some v else JsObject.get rest k

/-- Writing `o[k] = v`: an existing property keeps its place, a new one is created last. -/
def JsObject.set {V : Type} (o : JsObject V) (k : Nat) (v : V) : JsObject V :=
  match o with
  | [] => [(k, v)]
  | (k', v') :: rest => if k' = k then (k, v) :: rest else (k', v') :: JsObject.set rest k v

/-- A property name is an array index when it is the numeral of an integer below `2^32 - 1`. -/
def isArrayIndex (k : Nat) : Bool := decide (k < 4294967295)

/-- Own-property order of ECMAScript (`OrdinaryOwnPropertyKeys`): array indices in ascending
numeric order, then the other names in creation order. -/
def JsObject.ownEntries {V : Type} (o : JsObject V) : List (Nat × V) :=
  (o.filter (fun e => isArrayIndex e.1)).insertionSort (fun a b => a.1 ≤ b.1)
    ++ o.filter (fun e => !isArrayIndex e.1)

/-- The builtin `Object.values(o)`. -/
def Object.values {V : Type} (o : JsObject V) : List V := o.ownEntries.map Prod.snd

/-- The builtin `Object.entries(o)`. -/
def Object.entries {V : Type} (o : JsObject V) : List (Nat × V) := o.ownEntries

/-- Subtraction of JavaScript numbers: `NaN` as soon as an operand is missing. -/
def jsSub {D : Type} [Sub D] : Option D → Option D → Option D
  | some x, some y => some (x - y)
  | _, _ => none

/-- The abstract operation `SortCompare` for a comparator: a `NaN` result counts as `+0`. -/
def sortCompare {α D : Type} [Zero D] (comparefn : α → α → Option D) (x y : α) : D :=
  (comparefn x y).getD 0

/-- The builtin `Array.prototype.sort(comparefn)`, a stable sort: `x` is placed after `y` only
when `SortCompare(x, y) > 0`. -/
def JsArray.sort {α D : Type} [Zero D] [LE D] [DecidableRel (fun a b : D => a ≤ b)]
    (comparefn : α → α → Option D) (l : List α) : List α :=
  l.insertionSort (fun x y => sortCompare comparefn x y ≤ 0)

/-- The builtin `Array.prototype.slice(0, n)`. -/
def JsArray.slice0 {α : Type} (n : Nat) (l : List α) : List α := l.take n

/-- The builtin `Array.prototype.findIndex(p) === i`. -/
def JsArray.findIndexIs {α : Type} (p : α → Bool) (l : List α) (i : Nat) : Bool :=
  decide (l.findIdx p = i ∧ i < l.length)

/-- The expression `x || 0` on a count. -/
def orZero (x : Option Int) : Int := x.getD 0

/-- White space and line terminators of ECMAScript, the characters `trim` removes. -/
def isWhiteSpace (c : Char) : Bool :=
  c.toNat ∈ [9, 10, 11, 12, 13, 32, 160, 5760, 8232, 8233, 8239, 8287, 12288, 65279]
    || (8192 ≤ c.toNat && c.toNat ≤ 8202)

/-- The builtin `String.prototype.trim`. -/
def trim (s : String) : String :=
  ⟨((s.data.dropWhile isWhiteSpace).reverse.dropWhile isWhiteSpace).reverse⟩

/-- The builtin `String.prototype.includes`. -/
def includes (s t : String) : Bool := decide (t.data <:+: s.data)

/-- Lower-casing of the ASCII letters, an instance of `toLowerCase` for concrete inputs. -/
def asciiLowerCase (s : String) : String := ⟨s.data.map Char.toLower⟩

/-- Comparison of two sequences of code points: negative, zero or positive. -/
def compareCodePoints : List Char → List Char → Int
  | [], [] => 0
  | [], _ :: _ => -1
  | _ :: _, [] => 1
  | a :: as, b :: bs =>
    if a.toNat < b.toNat then -1 else if b.toNat < a.toNat then 1 else compareCodePoints as bs

/-- Code point order on strings, an instance of `localeCompare` for concrete inputs. -/
def codePointCompare (a b : String) : Int := compareCodePoints a.data b.data

/-! ## `updateSidebar`, `sortStations` -/

/-- Lines 123-124 of `updateSidebar`: the object `uniqueStationsMap` after the `forEach`. -/
def uniqueStationsMap (stationsData : List Station) : JsObject Station :=
  stationsData.foldl (fun uniqueStationsMap s =>
    JsObject.set uniqueStationsMap s.station_id s) []

/-- Line 125 of `updateSidebar`: the deduplicated list `uniqueStations`. -/
def uniqueStations (stationsData : List Station) : List Station :=
  Object.values (uniqueStationsMap stationsData)

/-- Lines 130-137 of `updateSidebar`: `minBikes` and `minDocks` are the parsed inputs,
`arrondissementValue` is the raw text of the input field. -/
def filtered (toLowerCase : String → String) (uniqueStations : List Station)
    (minBikes minDocks : Int) (arrondissementValue : String) : List Station :=
  let arrondissement := trim (toLowerCase arrondissementValue)
  uniqueStations.filter (fun s =>
    decide (orZero s.num_bikes_available ≥ minBikes) &&
    decide (orZero s.num_docks_available ≥ minDocks) &&
    (if arrondissement ≠ "" then includes (toLowerCase s.name) arrondissement else true))

/-- The filter criterion in the words of the specification: the counts are compared with the
minima and the lower-cased name is searched for the lower-cased `nameContains`. -/
def specFilterCriterion (toLowerCase : String → String) (minBikes minDocks : Int)
    (nameContains : String) (s : Station) : Bool :=
  decide (orZero s.num_bikes_available ≥ minBikes) &&
  decide (orZero s.num_docks_available ≥ minDocks) &&
  (decide (nameContains = "") || includes (toLowerCase s.name) (toLowerCase nameContains))

/-- The active filter in the words of the specification: one of the three criteria differs from
its default. -/
def specActiveFilter (minBikes minDocks : Int) (area : String) : Bool :=
  decide (minBikes ≠ 0) || decide (minDocks ≠ 0) || decide (area ≠ "")

/-- The list `stationsToShow` that `updateSidebar` displays. -/
def updateSidebar (toLowerCase : String → String) (localeCompare : String → String → Int)
    (stationsData : List Station) (selectedMode : String)
    (minBikes minDocks : Int) (arrondissementValue : String)
    (selectedStation : Option Station) : List Station :=
  match selectedStation with
  | some st => [st]
  | none =>
    let uniqueStations := uniqueStations stationsData
    let arrondissement := trim (toLowerCase arrondissementValue)
    let filtered := filtered toLowerCase uniqueStations minBikes minDocks arrondissementValue
    let hasFilter := decide (minBikes > 0) || decide (minDocks > 0) || decide (arrondissement ≠ "")
    if hasFilter then
      JsArray.sort (fun a b =>
        let valA := if selectedMode = "bikes" then a.num_bikes_available else a.num_docks_available
        let valB := if selectedMode = "bikes" then b.num_bikes_available else b.num_docks_available
        jsSub valB valA) filtered
    else
      JsArray.sort (fun a b => some (localeCompare a.name b.name)) uniqueStations

/-- The function `sortStations(stations, mode, filtered)`. -/
def sortStations (localeCompare : String → String → Int)
    (stations : List Station) (mode : String) (filtered : Bool) : List Station :=
  if !filtered then
    JsArray.sort (fun a b => some (localeCompare a.name b.name)) stations
  else
    JsArray.sort (fun a b =>
      let valA := if mode = "bikes" then a.num_bikes_available else a.num_docks_available
      let valB := if mode = "bikes" then b.num_bikes_available else b.num_docks_available
      jsSub valB valA) stations

/-! ## `haversine`, `searchAddress` -/

/-- The function `haversine(lat1, lon1, lat2, lon2)` on finite numbers. -/
noncomputable def haversine (lat1 lon1 lat2 lon2 : ℝ) : ℝ :=
  let R : ℝ := 6371
  let dLat := (lat2 - lat1) * Real.pi / 180
  let dLon := (lon2 - lon1) * Real.pi / 180
  let a :=
    Real.sin (dLat / 2) ^ 2 +
    Real.cos (lat1 * Real.pi / 180) *
    Real.cos (lat2 * Real.pi / 180) *
    Real.sin (dLon / 2) ^ 2
  R * 2 * Real.arcsin (Real.sqrt a)

/-- The local `a` of `haversine`, the argument of the square root. -/
noncomputable def haversine_a (lat1 lon1 lat2 lon2 : ℝ) : ℝ :=
  let dLat := (lat2 - lat1) * Real.pi / 180
  let dLon := (lon2 - lon1) * Real.pi / 180
  Real.sin (dLat / 2) ^ 2 +
  Real.cos (lat1 * Real.pi / 180) *
  Real.cos (lat2 * Real.pi / 180) *
  Real.sin (dLon / 2) ^ 2

/-- The call `haversine(lat, lon, s.lat, s.lon)` of `searchAddress`: `NaN` when a coordinate of
the station is missing or not a number. -/
noncomputable def haversineOf (lat lon : ℝ) (s : Station) : Option ℝ :=
  match s.lat, s.lon with
  | some slat, some slon => some (haversine lat lon slat slon)
  | _, _ => none

/-- The object `{...s, distance}` built by `searchAddress`. -/
structure Nearest where
  station : Station
  distance : Option ℝ

/-- Two entries in non-decreasing order of distance, both distances being numbers. -/
def Nearest.le (a b : Nearest) : Prop :=
  ∃ x y : ℝ, a.distance = some x ∧ b.distance = some y ∧ x ≤ y

/-- The list `nearest` of `searchAddress` in `static/app.js`, for the geocoded point. -/
noncomputable def searchAddress (lat lon : ℝ) (stationsData : List Station) : List Nearest :=
  JsArray.slice0 3
    (JsArray.sort (fun a b => jsSub a.distance b.distance)
      (stationsData.map (fun s => { station := s, distance := haversineOf lat lon s })))

/-- The candidates of `searchAddress` in `old_files/static/app.js`: the mapped list after
`.filter((v, i, a) => a.findIndex(t => t.station_id === v.station_id) === i)`. -/
noncomputable def Old.candidates (lat lon : ℝ) (stationsData : List Station) : List Nearest :=
  let a : List Nearest :=
    stationsData.map (fun s => { station := s, distance := haversineOf lat lon s })
  (a.enum.filter (fun iv =>
    JsArray.findIndexIs (fun t => decide (t.station.station_id = iv.2.station.station_id)) a iv.1)).map
    Prod.snd

/-- The list `nearest` of `searchAddress` in `old_files/static/app.js`. -/
noncomputable def Old.searchAddress (lat lon : ℝ) (stationsData : List Station) : List Nearest :=
  JsArray.slice0 5
    (JsArray.sort (fun a b => jsSub a.distance b.distance) (Old.candidates lat lon stationsData))

/-! ## `computeGlobalHourlyAverage` -/

/-- One element of the result of `computeGlobalHourlyAverage`. -/
structure HourlyPoint where
  hour : Nat
  avg : ℚ
  deriving DecidableEq, Repr

/-- The call `new Date(t).getHours()`: `HourFromTime(LocalTime(t))`, with `localTZA t` the offset
of local time at `t` in milliseconds. -/
def getHours (localTZA : Int → Int) (t : Int) : Nat :=
  (((t + localTZA t) / 3600000) % 24).toNat

/-- Lines 292-300 of `computeGlobalHourlyAverage`: the object `byHour` after the two nested
`forEach`.  `byHour[hour] = byHour[hour] || []` keeps an array that is there, and `push` appends
to it. -/
def byHour (localTZA : Int → Int) (selectedMode : String) (stations : List Station) :
    JsObject (List Int) :=
  stations.foldl (fun byHour s =>
    (s.history.getD []).foldl (fun byHour h =>
      let hour := getHours localTZA h.timestamp
      let value := if selectedMode = "bikes" then h.num_bikes_available else h.num_docks_available
      let byHour := JsObject.set byHour hour ((JsObject.get byHour hour).getD [])
      JsObject.set byHour hour ((JsObject.get byHour hour).getD [] ++ [value])) byHour) []

/-- The function `computeGlobalHourlyAverage(stations)`; the key of an entry is converted back
to a number by `+h`. -/
def computeGlobalHourlyAverage (localTZA : Int → Int) (selectedMode : String)
    (stations : List Station) : List HourlyPoint :=
  JsArray.sort (fun a b => some ((a.hour : Int) - (b.hour : Int)))
    ((Object.entries (byHour localTZA selectedMode stations)).map (fun e =>
      { hour := e.1, avg := ((e.2.foldl (fun a b => a + b) 0 : Int) : ℚ) / (e.2.length : ℚ) }))

/-- The samples of all stations, in the order `computeGlobalHourlyAverage` visits them. -/
def allSamples (stations : List Station) : List HistorySample :=
  stations.flatMap (fun s => s.history.getD [])

/-- The values of the selected metric over the samples that fall in hour-of-day `hour`. -/
def samplesOfHour (localTZA : Int → Int) (selectedMode : String) (stations : List Station)
    (hour : Nat) : List Int :=
  ((allSamples stations).filter (fun h => decide (getHours localTZA h.timestamp = hour))).map
    (fun h => if selectedMode = "bikes" then h.num_bikes_available else h.num_docks_available)

/-! ## `loadStations` -/

/-- The variables that `loadStations` writes, `stationsData` and the visibility of the loader,
with the bookkeeping of the host: how many calls were made so far and which of their requests
are still awaiting a response.  The request of the `k`-th call (from 0) is request `k`. -/
structure Page where
  stationsData : List Station
  loader : Bool
  issued : Nat
  pending : List Nat
  deriving DecidableEq, Repr

/-- The page when the script starts: `let stationsData = []`, nothing requested. -/
def Page.start : Page := { stationsData := [], loader := false, issued := 0, pending := [] }

/-- What the scheduler does next: a call of `loadStations()`, which runs up to `await fetch(...)`,
or the arrival of the response of a pending request, which resumes that call. -/
inductive Event where
  | call
  | resolve (request : Nat)
  deriving DecidableEq, Repr

/-- Lines 34-45 of `loadStations`: `showLoader(true)`, then the request is sent. -/
def loadStations_call (p : Page) : Page :=
  { p with loader := true, issued := p.issued + 1, pending := p.pending ++ [p.issued] }

/-- Lines 46-56 of `loadStations`, resumed with the outcome of `await res.json()` for `request`:
on success `stationsData` is assigned the body, on failure the `catch` leaves it as it is, and
`finally` hides the loader.  No test on the request is made. -/
def loadStations_resume (p : Page) (request : Nat) (body : Option (List Station)) : Page :=
  match body with
  | some data =>
    { p with stationsData := data, loader := false, pending := p.pending.erase request }
  | none => { p with loader := false, pending := p.pending.erase request }

/-- One step of a run; `response k` is what the provider answers to request `k` (`none` for a
failure).  A response can only arrive for a pending request. -/
def step (response : Nat → Option (List Station)) (p : Page) : Event → Option Page
  | Event.call => some (loadStations_call p)
  | Event.resolve request =>
    if request ∈ p.pending then some (loadStations_resume p request (response request)) else none

/-- A run: the events in the order the scheduler takes them. -/
def run (response : Nat → Option (List Station)) (p : Page) : List Event → Option Page
  | [] => some p
  | e :: es =>
    match step response p e with
    | some p' => run response p' es
    | none => none

/-- The answers of the provider to two requests, both successful. -/
def twoResponses (first second : List Station) (request : Nat) : Option (List Station) :=
  if request = 0 then some first else some second

/-! ## Concrete batches -/

/-- A station whose name has no blank. -/
def paris : Station := { station_id := 1, name := "Paris", num_bikes_available := some 5 }

/-- The batch of the filter scenario of the specification. -/
def scenarioB : Station :=
  { station_id := 1, name := "B", num_bikes_available := some 5, num_docks_available := some 0 }

/-- The second station of the filter scenario. -/
def scenarioA : Station :=
  { station_id := 2, name := "A", num_bikes_available := some 0, num_docks_available := some 5 }

/-- A snapshot without a bike count. -/
def noBikeCount : Station := { station_id := 1, name := "A", num_docks_available := some 3 }

/-- A snapshot with five bikes. -/
def fiveBikes : Station :=
  { station_id := 2, name := "B", num_bikes_available := some 5, num_docks_available := some 3 }

/-- A snapshot of station 7, located at the origin. -/
def sevenFirst : Station :=
  { station_id := 7, name := "X", lat := some 0, lon := some 0, num_bikes_available := some 1 }

/-- A later snapshot of the same station 7, with another count. -/
def sevenLater : Station :=
  { station_id := 7, name := "X", lat := some 0, lon := some 0, num_bikes_available := some 2 }

/-- A snapshot without coordinates. -/
def noCoordinates : Station := { station_id := 9, name := "N" }

/-- A station with three samples in the first hour of the day, on three different days. -/
def threeSamples : Station :=
  { station_id := 1, name := "A",
    history := some [⟨0, 2, 9⟩, ⟨86400000, 4, 9⟩, ⟨172800000 + 1000, 6, 9⟩] }

/-! ## Objects as maps -/

theorem JsObject.get_set {V : Type} (o : JsObject V) (k k' : Nat) (v : V) :
    (o.set k v).get k' = if k = k' then some v else o.get k' := by
  induction o with
  | nil => simp [JsObject.set, JsObject.get]
  | cons e rest ih =>
    obtain ⟨k0, v0⟩ := e
    by_cases h : k0 = k
    · subst h
      simp only [JsObject.set, JsObject.get, if_true]
      split_ifs <;> rfl
    · by_cases h' : k0 = k'
      · subst h'
        simp [JsObject.set, JsObject.get, h, Ne.symm h]
      · simp [JsObject.set, JsObject.get, h, h', ih]

theorem JsObject.keys_set {V : Type} (o : JsObject V) (k : Nat) (v : V) :
    (o.set k v).map Prod.fst = if k ∈ o.map Prod.fst then o.map Prod.fst else o.map Prod.fst ++ [k] := by
  induction o with
  | nil => simp [JsObject.set]
  | cons e rest ih =>
    obtain ⟨k0, v0⟩ := e
    by_cases h : k0 = k
    · subst h
      simp [JsObject.set]
    · have h2 : ¬ k = k0 := fun h3 => h h3.symm
      simp only [JsObject.set, h, if_false, List.map_cons, ih, List.mem_cons, h2, false_or]
      split_ifs <;> simp

theorem JsObject.nodup_keys_set {V : Type} (o : JsObject V) (k : Nat) (v : V)
    (h : (o.map Prod.fst).Nodup) : ((o.set k v).map Prod.fst).Nodup := by
  rw [JsObject.keys_set]
  split_ifs with hk
  · exact h
  · exact List.Nodup.append h (List.nodup_singleton k) (by simpa using hk)

theorem JsObject.mem_iff_get {V : Type} (o : JsObject V) (h : (o.map Prod.fst).Nodup)
    (k : Nat) (v : V) : (k, v) ∈ o ↔ o.get k = some v := by
  induction o with
  | nil => simp [JsObject.get]
  | cons e rest ih =>
    obtain ⟨k0, v0⟩ := e
    simp only [List.map_cons, List.nodup_cons, List.mem_map, not_exists, not_and] at h
    by_cases hk : k0 = k
    · subst hk
      simp only [JsObject.get, if_true, List.mem_cons, Prod.mk.injEq, true_and, Option.some.injEq]
      constructor
      · rintro (h1 | h1)
        · exact h1.symm
        · exact absurd rfl (h.1 (k0, v) h1)
      · intro h1
        exact Or.inl h1.symm
    · simp only [JsObject.get, hk, if_false, List.mem_cons, Prod.mk.injEq, ← ih h.2]
      constructor
      · rintro (h1 | h1)
        · exact absurd h1.1.symm hk
        · exact h1
      · intro h1
        exact Or.inr h1

theorem JsObject.ownEntries_perm {V : Type} (o : JsObject V) : o.ownEntries.Perm o := by
  unfold JsObject.ownEntries
  refine ((List.perm_insertionSort _ _).append (List.Perm.refl _)).trans ?_
  exact List.filter_append_perm _ _

/-- The snapshot stored under a key after the `forEach` of `updateSidebar` is the last one of the
batch with that id. -/
theorem uniqueStationsMap_get (stationsData : List Station) (k : Nat) :
    (uniqueStationsMap stationsData).get k
      = stationsData.reverse.find? (fun t => decide (t.station_id = k)) := by
  induction stationsData using List.reverseRecOn with
  | nil => rfl
  | append_singleton l s ih =>
    unfold uniqueStationsMap at ih ⊢
    rw [List.foldl_append, List.reverse_append]
    simp only [List.foldl_cons, List.foldl_nil, List.reverse_cons, List.reverse_nil, List.nil_append,
      List.singleton_append, List.find?_cons, JsObject.get_set, ih]
    by_cases h : s.station_id = k <;> simp [h]

theorem uniqueStationsMap_nodup (stationsData : List Station) :
    ((uniqueStationsMap stationsData).map Prod.fst).Nodup := by
  induction stationsData using List.reverseRecOn with
  | nil => simp [uniqueStationsMap]
  | append_singleton l s ih =>
    unfold uniqueStationsMap at ih ⊢
    rw [List.foldl_append]
    exact JsObject.nodup_keys_set _ _ _ ih

theorem uniqueStationsMap_key (stationsData : List Station) (k : Nat) (s : Station)
    (h : (k, s) ∈ uniqueStationsMap stationsData) : s.station_id = k := by
  rw [JsObject.mem_iff_get _ (uniqueStationsMap_nodup stationsData), uniqueStationsMap_get] at h
  simpa using List.find?_some h

/-- Membership in the deduplicated list, through the map. -/
theorem mem_uniqueStations (stationsData : List Station) (s : Station) :
    s ∈ uniqueStations stationsData
      ↔ stationsData.reverse.find? (fun t => decide (t.station_id = s.station_id)) = some s := by
  unfold uniqueStations Object.values
  rw [List.mem_map]
  constructor
  · rintro ⟨⟨k, v⟩, hmem, hv⟩
    simp only at hv
    subst hv
    have hm := (JsObject.ownEntries_perm _).mem_iff.1 hmem
    have hk := uniqueStationsMap_key _ _ _ hm
    rw [JsObject.mem_iff_get _ (uniqueStationsMap_nodup stationsData), uniqueStationsMap_get] at hm
    rw [hk]; exact hm
  · intro h
    refine ⟨(s.station_id, s), ?_, rfl⟩
    rw [(JsObject.ownEntries_perm _).mem_iff,
      JsObject.mem_iff_get _ (uniqueStationsMap_nodup stationsData), uniqueStationsMap_get]
    exact h

theorem uniqueStations_ids_nodup (stationsData : List Station) :
    ((uniqueStations stationsData).map (fun s => s.station_id)).Nodup := by
  have h1 : (uniqueStations stationsData).map (fun s => s.station_id)
      = ((uniqueStationsMap stationsData).ownEntries).map Prod.fst := by
    unfold uniqueStations Object.values
    rw [List.map_map]
    apply List.map_congr_left
    rintro ⟨k, v⟩ hmem
    have hm := (JsObject.ownEntries_perm _).mem_iff.1 hmem
    exact uniqueStationsMap_key _ _ _ hm
  rw [h1]
  exact ((JsObject.ownEntries_perm _).map Prod.fst).nodup_iff.2 (uniqueStationsMap_nodup stationsData)

theorem JsObject.length_set_le {V : Type} (o : JsObject V) (k : Nat) (v : V) :
    (o.set k v).length ≤ o.length + 1 := by
  induction o with
  | nil => simp [JsObject.set]
  | cons e rest ih =>
    obtain ⟨k0, v0⟩ := e
    by_cases h : k0 = k
    · simp [JsObject.set, h]
    · simpa [JsObject.set, h] using ih

theorem uniqueStationsMap_length_le (stationsData : List Station) :
    (uniqueStationsMap stationsData).length ≤ stationsData.length := by
  induction stationsData using List.reverseRecOn with
  | nil => simp [uniqueStationsMap]
  | append_singleton l s ih =>
    unfold uniqueStationsMap at ih ⊢
    rw [List.foldl_append, List.length_append]
    exact (JsObject.length_set_le _ _ _).trans (by simpa using ih)

/-- Being the last element of a list that satisfies a test, spelled out with a split of the
list. -/
theorem find?_reverse_eq_some_iff {α : Type} (p : α → Bool) (l : List α) (s : α) :
    l.reverse.find? p = some s
      ↔ p s = true ∧ ∃ pre post, l = pre ++ s :: post ∧ ∀ t ∈ post, p t = false := by
  rw [List.find?_eq_some]
  constructor
  · rintro ⟨hs, as, bs, hl, hall⟩
    refine ⟨hs, bs.reverse, as.reverse, ?_, ?_⟩
    · have := congrArg List.reverse hl
      simpa using this
    · intro t ht
      simpa using hall t (List.mem_reverse.1 ht)
  · rintro ⟨hs, pre, post, hl, hall⟩
    refine ⟨hs, post.reverse, pre.reverse, ?_, ?_⟩
    · rw [hl]; simp
    · intro t ht
      simpa using hall t (List.mem_reverse.1 ht)

/-- C1: the deduplication step of `updateSidebar` keeps, for every station id of the batch, exactly
one snapshot, the last one of the batch carrying that id, and nothing else; the result has no
repeated id and is not longer than the batch. -/
theorem uniqueStations_last_wins (stationsData : List Station) :
    (∀ s, s ∈ uniqueStations stationsData ↔
        ∃ pre post, stationsData = pre ++ s :: post ∧ ∀ t ∈ post, t.station_id ≠ s.station_id)
    ∧ (∀ t ∈ stationsData,
        ((uniqueStations stationsData).filter
          (fun s => decide (s.station_id = t.station_id))).length = 1)
    ∧ ((uniqueStations stationsData).map (fun s => s.station_id)).Nodup
    ∧ (uniqueStations stationsData).length ≤ stationsData.length := by
  have hmem : ∀ s, s ∈ uniqueStations stationsData ↔
      ∃ pre post, stationsData = pre ++ s :: post ∧ ∀ t ∈ post, t.station_id ≠ s.station_id := by
    intro s
    rw [mem_uniqueStations, find?_reverse_eq_some_iff]
    simp
  refine ⟨hmem, ?_, uniqueStations_ids_nodup stationsData, ?_⟩
  · intro t ht
    have hex : t.station_id ∈ (uniqueStations stationsData).map (fun s => s.station_id) := by
      have hfind : ∃ s, stationsData.reverse.find? (fun u => decide (u.station_id = t.station_id))
          = some s := by
        rw [← Option.isSome_iff_exists, List.find?_isSome]
        exact ⟨t, List.mem_reverse.2 ht, by simp⟩
      obtain ⟨s, hs⟩ := hfind
      have hid : s.station_id = t.station_id := by simpa using List.find?_some hs
      rw [← hid] at hs
      exact List.mem_map.2 ⟨s, (mem_uniqueStations stationsData s).2 hs, hid⟩
    have hcount := List.count_eq_one_of_mem (uniqueStations_ids_nodup stationsData) hex
    rw [List.count, List.countP_map, List.countP_eq_length_filter] at hcount
    rw [← hcount]
    congr 1
  · unfold uniqueStations Object.values
    rw [List.length_map, (JsObject.ownEntries_perm _).length_eq]
    exact uniqueStationsMap_length_le stationsData

/-- C1 on a batch of three snapshots in which station 5 occurs twice. -/
theorem uniqueStations_last_wins_witness :
    uniqueStations [{ station_id := 5, name := "a" }, { station_id := 3, name := "b" },
        { station_id := 5, name := "c" }]
      = [{ station_id := 3, name := "b" }, { station_id := 5, name := "c" }]
    ∧ (({ station_id := 5, name := "c" } : Station) ∈
        uniqueStations [{ station_id := 5, name := "a" }, { station_id := 3, name := "b" },
          { station_id := 5, name := "c" }] ↔
        ∃ pre post, [{ station_id := 5, name := "a" }, { station_id := 3, name := "b" },
            ({ station_id := 5, name := "c" } : Station)]
          = pre ++ { station_id := 5, name := "c" } :: post
          ∧ ∀ t ∈ post, t.station_id ≠ 5) :=
  ⟨by decide,
   (uniqueStations_last_wins [{ station_id := 5, name := "a" }, { station_id := 3, name := "b" },
      { station_id := 5, name := "c" }]).1 { station_id := 5, name := "c" }⟩

/-! ## `Array.prototype.sort` -/

theorem JsArray.sort_perm {α D : Type} [Zero D] [LE D] [DecidableRel (fun a b : D => a ≤ b)]
    (comparefn : α → α → Option D) (l : List α) : (JsArray.sort comparefn l).Perm l :=
  List.perm_insertionSort _ l

theorem pairwise_orderedInsert_of_mem {α : Type} (r : α → α → Prop) [DecidableRel r]
    (a : α) (s : List α) (hs : s.Pairwise r)
    (htot : ∀ b ∈ s, r a b ∨ r b a)
    (htr : ∀ b ∈ s, ∀ c ∈ s, r a b → r b c → r a c) :
    (s.orderedInsert r a).Pairwise r := by
  induction s with
  | nil => simp
  | cons b t ih =>
    rw [List.pairwise_cons] at hs
    by_cases hab : r a b
    · rw [List.orderedInsert_of_le _ _ hab]
      refine List.pairwise_cons.2 ⟨?_, List.pairwise_cons.2 hs⟩
      intro x hx
      rcases List.mem_cons.1 hx with rfl | hxt
      · exact hab
      · exact htr b (List.mem_cons_self _ _) x (List.mem_cons_of_mem _ hxt) hab (hs.1 x hxt)
    · have hba : r b a := (htot b (List.mem_cons_self _ _)).resolve_left hab
      simp only [List.orderedInsert, hab, if_false]
      refine List.pairwise_cons.2 ⟨?_, ?_⟩
      · intro x hx
        rcases (List.mem_orderedInsert r).1 hx with rfl | hxt
        · exact hba
        · exact hs.1 x hxt
      · exact ih hs.2 (fun c hc => htot c (List.mem_cons_of_mem _ hc))
          (fun c hc d hd => htr c (List.mem_cons_of_mem _ hc) d (List.mem_cons_of_mem _ hd))

/-- Insertion sort orders a list as soon as the relation is total and transitive on the elements
of that list. -/
theorem pairwise_insertionSort_of_mem {α : Type} (r : α → α → Prop) [DecidableRel r]
    (l : List α) (htot : ∀ a ∈ l, ∀ b ∈ l, r a b ∨ r b a)
    (htr : ∀ a ∈ l, ∀ b ∈ l, ∀ c ∈ l, r a b → r b c → r a c) :
    (l.insertionSort r).Pairwise r := by
  induction l with
  | nil => simp
  | cons a t ih =>
    simp only [List.insertionSort]
    apply pairwise_orderedInsert_of_mem
    · exact ih (fun x hx y hy => htot x (List.mem_cons_of_mem _ hx) y (List.mem_cons_of_mem _ hy))
        (fun x hx y hy z hz => htr x (List.mem_cons_of_mem _ hx) y (List.mem_cons_of_mem _ hy)
          z (List.mem_cons_of_mem _ hz))
    · intro b hb
      exact htot a (List.mem_cons_self _ _) b (List.mem_cons_of_mem _ ((List.mem_insertionSort r).1 hb))
    · intro b hb c hc
      exact htr a (List.mem_cons_self _ _) b (List.mem_cons_of_mem _ ((List.mem_insertionSort r).1 hb))
        c (List.mem_cons_of_mem _ ((List.mem_insertionSort r).1 hc))

theorem filter_orderedInsert {α : Type} (r : α → α → Prop) [DecidableRel r] (p : α → Bool)
    (a : α) (s : List α) (h : p a = true → ∀ b ∈ s, p b = true → r a b) :
    (s.orderedInsert r a).filter p = (a :: s).filter p := by
  induction s with
  | nil => simp
  | cons b t ih =>
    by_cases hab : r a b
    · rw [List.orderedInsert_of_le _ _ hab]
    · simp only [List.orderedInsert, hab, if_false]
      have ih' := ih (fun ha c hc hpc => h ha c (List.mem_cons_of_mem _ hc) hpc)
      by_cases hpa : p a = true
      · have hpb : p b = false := by
          by_contra hpb
          exact hab (h hpa b (List.mem_cons_self _ _) (by simpa using hpb))
        simp only [List.filter_cons, hpb, hpa, if_true] at ih' ⊢
        simpa using ih'
      · have hpa' : p a = false := by simpa using hpa
        simp only [List.filter_cons, hpa'] at ih' ⊢
        simp only [ih']
        simp

/-- Stability of insertion sort: the elements of a class whose members are related to each other
keep their order. -/
theorem filter_insertionSort_of_mem {α : Type} (r : α → α → Prop) [DecidableRel r] (p : α → Bool)
    (l : List α) (h : ∀ a ∈ l, ∀ b ∈ l, p a = true → p b = true → r a b) :
    (l.insertionSort r).filter p = l.filter p := by
  induction l with
  | nil => simp
  | cons a t ih =>
    simp only [List.insertionSort]
    rw [filter_orderedInsert r p a _ (fun ha b hb hpb =>
      h a (List.mem_cons_self _ _) b (List.mem_cons_of_mem _ ((List.mem_insertionSort r).1 hb)) ha hpb)]
    have ih' := ih (fun x hx y hy => h x (List.mem_cons_of_mem _ hx) y (List.mem_cons_of_mem _ hy))
    simp only [List.filter_cons, ih']

/-- What `Array.prototype.sort` guarantees when its comparator agrees, on the elements of the
list, with a total and transitive relation: a permutation, ordered, and stable. -/
theorem JsArray.sort_spec {α D : Type} [Zero D] [LE D] [DecidableRel (fun a b : D => a ≤ b)]
    (comparefn : α → α → Option D) (l : List α) (le' : α → α → Prop)
    (hiff : ∀ a ∈ l, ∀ b ∈ l, (sortCompare comparefn a b ≤ 0 ↔ le' a b))
    (htot : ∀ a ∈ l, ∀ b ∈ l, le' a b ∨ le' b a)
    (htr : ∀ a ∈ l, ∀ b ∈ l, ∀ c ∈ l, le' a b → le' b c → le' a c) :
    (JsArray.sort comparefn l).Perm l
    ∧ (JsArray.sort comparefn l).Pairwise le'
    ∧ ∀ p : α → Bool, (∀ a ∈ l, ∀ b ∈ l, p a = true → p b = true → le' a b) →
        (JsArray.sort comparefn l).filter p = l.filter p := by
  refine ⟨JsArray.sort_perm comparefn l, ?_, ?_⟩
  · have hp : (JsArray.sort comparefn l).Pairwise (fun x y => sortCompare comparefn x y ≤ 0) := by
      unfold JsArray.sort
      apply pairwise_insertionSort_of_mem
      · intro a ha b hb
        exact (htot a ha b hb).imp (hiff a ha b hb).2 (hiff b hb a ha).2
      · intro a ha b hb c hc h1 h2
        exact (hiff a ha c hc).2 (htr a ha b hb c hc ((hiff a ha b hb).1 h1) ((hiff b hb c hc).1 h2))
    have hmem : ∀ x, x ∈ JsArray.sort comparefn l → x ∈ l :=
      fun x hx => (JsArray.sort_perm comparefn l).mem_iff.1 hx
    exact (List.Pairwise.and_mem.1 hp).imp
      (fun {a b} h => (hiff a (hmem a h.1) b (hmem b h.2.1)).1 h.2.2)
  · intro p hp
    unfold JsArray.sort
    apply filter_insertionSort_of_mem
    intro a ha b hb hpa hpb
    exact (hiff a ha b hb).2 (hp a ha b hb hpa hpb)

/-! ## The filter step of `updateSidebar` -/

/-- C2, as stated, fails: with the text `" "` in the name field the code trims the needle to the
empty string and keeps the station, while the stated criterion looks for a blank in `"paris"`. -/
theorem filtered_ne_specFilterCriterion :
    filtered asciiLowerCase [paris]
        0 0 " "
      = [paris]
    ∧ [paris].filter
        (specFilterCriterion asciiLowerCase 0 0 " ") = [] := by
  decide

/-- C2, amended: the filter step returns, in their original order, exactly the snapshots whose
counts (a missing count read as 0) reach the minima and whose lower-cased name contains the
lower-cased and trimmed text of the name field, every name passing when that text is empty after
trimming; on the batch of the scenario with `minBikes = 1` only station 1 is returned. -/
theorem filtered_spec (toLowerCase : String → String) (stations : List Station)
    (minBikes minDocks : Int) (nameContains : String) :
    filtered toLowerCase stations minBikes minDocks nameContains
      = stations.filter (fun s =>
          decide (minBikes ≤ orZero s.num_bikes_available) &&
          decide (minDocks ≤ orZero s.num_docks_available) &&
          (decide (trim (toLowerCase nameContains) = "") ||
            includes (toLowerCase s.name) (trim (toLowerCase nameContains))))
    ∧ (filtered toLowerCase stations minBikes minDocks nameContains).Sublist stations
    ∧ (∀ s, s ∈ filtered toLowerCase stations minBikes minDocks nameContains ↔
        s ∈ stations ∧ minBikes ≤ orZero s.num_bikes_available ∧
          minDocks ≤ orZero s.num_docks_available ∧
          (trim (toLowerCase nameContains) = "" ∨
            (trim (toLowerCase nameContains)).data <:+: (toLowerCase s.name).data))
    ∧ filtered asciiLowerCase [scenarioB, scenarioA] 1 0 "" = [scenarioB] := by
  have heq : filtered toLowerCase stations minBikes minDocks nameContains
      = stations.filter (fun s =>
          decide (minBikes ≤ orZero s.num_bikes_available) &&
          decide (minDocks ≤ orZero s.num_docks_available) &&
          (decide (trim (toLowerCase nameContains) = "") ||
            includes (toLowerCase s.name) (trim (toLowerCase nameContains)))) := by
    unfold filtered
    apply List.filter_congr
    intro s _
    by_cases h : trim (toLowerCase nameContains) = "" <;> simp [h]
  refine ⟨heq, ?_, ?_, by decide⟩
  · rw [heq]; exact List.filter_sublist _
  · intro s
    rw [heq, List.mem_filter]
    simp [includes, and_assoc]

/-! ## Sorting by availability -/

/-- C3 at a failing input: the bike count of station 1 is missing and station 2 has 5 bikes; both
`sortStations(stations, "bikes", true)` and the filtered branch of `updateSidebar` (here with
`minDocks = 1`) leave station 1 first, although its count reads as 0. -/
theorem sortStations_missing_count :
    sortStations codePointCompare [noBikeCount, fiveBikes] "bikes" true = [noBikeCount, fiveBikes]
    ∧ updateSidebar asciiLowerCase codePointCompare [noBikeCount, fiveBikes] "bikes" 0 1 "" none
      = [noBikeCount, fiveBikes]
    ∧ noBikeCount.num_bikes_available = none
    ∧ orZero noBikeCount.num_bikes_available < orZero fiveBikes.num_bikes_available := by
  decide

/-- Wherever every snapshot carries the count of the mode, sorting with an active filter is a
permutation in non-increasing order of that count, and snapshots with equal counts keep their
order. -/
theorem sortStations_desc_of_present (localeCompare : String → String → Int)
    (stations : List Station) (mode : String)
    (hpresent : ∀ s ∈ stations, ∃ v : Int,
      (if mode = "bikes" then s.num_bikes_available else s.num_docks_available) = some v) :
    (sortStations localeCompare stations mode true).Perm stations
    ∧ (sortStations localeCompare stations mode true).Pairwise (fun a b =>
        orZero (if mode = "bikes" then b.num_bikes_available else b.num_docks_available)
          ≤ orZero (if mode = "bikes" then a.num_bikes_available else a.num_docks_available))
    ∧ ∀ c : Int,
        (sortStations localeCompare stations mode true).filter (fun s => decide
          ((if mode = "bikes" then s.num_bikes_available else s.num_docks_available) = some c))
        = stations.filter (fun s => decide
          ((if mode = "bikes" then s.num_bikes_available else s.num_docks_available) = some c)) := by
  have hsort : sortStations localeCompare stations mode true
      = JsArray.sort (fun a b : Station =>
        jsSub (if mode = "bikes" then b.num_bikes_available else b.num_docks_available)
          (if mode = "bikes" then a.num_bikes_available else a.num_docks_available)) stations := by
    simp [sortStations]
  rw [hsort]
  obtain ⟨h1, h2, h3⟩ := JsArray.sort_spec (fun a b : Station =>
        jsSub (if mode = "bikes" then b.num_bikes_available else b.num_docks_available)
          (if mode = "bikes" then a.num_bikes_available else a.num_docks_available)) stations
      (fun a b =>
        orZero (if mode = "bikes" then b.num_bikes_available else b.num_docks_available)
          ≤ orZero (if mode = "bikes" then a.num_bikes_available else a.num_docks_available))
      (by
        intro a ha b hb
        obtain ⟨x, hx⟩ := hpresent a ha
        obtain ⟨y, hy⟩ := hpresent b hb
        simp only [sortCompare, hx, hy, jsSub, orZero, Option.getD_some]
        omega)
      (fun a _ b _ => le_total _ _)
      (fun a _ b _ c _ h1 h2 => le_trans h2 h1)
  refine ⟨h1, h2, fun c => h3 _ ?_⟩
  intro a _ b _ hpa hpb
  simp only [decide_eq_true_eq] at hpa hpb
  rw [hpa, hpb]

/-! ## Sorting by name -/

theorem compareCodePoints_antisymm (x y : List Char) :
    0 < compareCodePoints x y ↔ compareCodePoints y x < 0 := by
  induction x generalizing y with
  | nil => cases y <;> simp [compareCodePoints]
  | cons a as ih =>
    cases y with
    | nil => simp [compareCodePoints]
    | cons b bs =>
      simp only [compareCodePoints]
      split_ifs <;> first | omega | simp | exact ih bs

theorem compareCodePoints_trans (x y z : List Char) :
    compareCodePoints x y ≤ 0 → compareCodePoints y z ≤ 0 → compareCodePoints x z ≤ 0 := by
  induction x generalizing y z with
  | nil => cases z <;> simp [compareCodePoints]
  | cons a as ih =>
    cases y with
    | nil => simp [compareCodePoints]
    | cons b bs =>
      cases z with
      | nil =>
        simp only [compareCodePoints]
        split_ifs <;> simp
      | cons c cs =>
        simp only [compareCodePoints]
        split_ifs <;> first | omega | simp | exact ih bs cs

/-- C4: with no active filter, `sortStations` returns a permutation of its input, in
non-decreasing order of name for `localeCompare`, the same for every mode, and stable: the
snapshots whose names compare equal to a given name keep their order.  The else branch of
`updateSidebar` is this sort applied to the deduplicated batch.  `localeCompare` is any comparison
that is consistent (its sign is reversed by swapping the arguments, and it is transitive). -/
theorem sortStations_by_name (localeCompare : String → String → Int)
    (hanti : ∀ a b, 0 < localeCompare a b ↔ localeCompare b a < 0)
    (htrans : ∀ a b c, localeCompare a b ≤ 0 → localeCompare b c ≤ 0 → localeCompare a c ≤ 0)
    (stations : List Station) (mode : String) :
    (sortStations localeCompare stations mode false).Perm stations
    ∧ (sortStations localeCompare stations mode false).Pairwise
        (fun a b => localeCompare a.name b.name ≤ 0)
    ∧ (∀ x : String,
        (sortStations localeCompare stations mode false).filter
            (fun s => decide (localeCompare x s.name = 0))
          = stations.filter (fun s => decide (localeCompare x s.name = 0)))
    ∧ (∀ mode' : String,
        sortStations localeCompare stations mode' false
          = sortStations localeCompare stations mode false)
    ∧ (∀ (toLowerCase : String → String) (stationsData : List Station) (selectedMode : String)
        (minBikes minDocks : Int) (arrondissementValue : String),
        minBikes ≤ 0 → minDocks ≤ 0 → trim (toLowerCase arrondissementValue) = "" →
        updateSidebar toLowerCase localeCompare stationsData selectedMode minBikes minDocks
            arrondissementValue none
          = sortStations localeCompare (uniqueStations stationsData) mode false) := by
  have hsort : sortStations localeCompare stations mode false
      = JsArray.sort (fun a b : Station => some (localeCompare a.name b.name)) stations := by
    simp [sortStations]
  have hzero : ∀ a b, localeCompare a b = 0 → localeCompare b a ≤ 0 := by
    intro a b h
    by_contra hc
    have h1 : 0 < localeCompare b a := by omega
    have h2 := (hanti b a).1 h1
    omega
  obtain ⟨h1, h2, h3⟩ := JsArray.sort_spec
      (fun a b : Station => some (localeCompare a.name b.name)) stations
      (fun a b => localeCompare a.name b.name ≤ 0)
      (fun a _ b _ => by simp [sortCompare])
      (fun a _ b _ => by
        by_cases h : localeCompare a.name b.name ≤ 0
        · exact Or.inl h
        · exact Or.inr (le_of_lt ((hanti a.name b.name).1 (by omega))))
      (fun a _ b _ c _ => htrans a.name b.name c.name)
  rw [hsort]
  refine ⟨h1, h2, fun x => h3 _ ?_, ?_, ?_⟩
  · intro a _ b _ hpa hpb
    simp only [decide_eq_true_eq] at hpa hpb
    exact htrans _ _ _ (hzero _ _ hpa) (le_of_eq hpb)
  · intro mode'
    simp [sortStations]
  · intro toLowerCase stationsData selectedMode minBikes minDocks arrondissementValue hb hd ht
    have hb' : ¬ minBikes > 0 := by omega
    have hd' : ¬ minDocks > 0 := by omega
    simp [updateSidebar, sortStations, hb', hd', ht]

/-- C4 with code point order as the name comparison, on a batch of three stations. -/
theorem sortStations_by_name_witness :
    (sortStations codePointCompare [fiveBikes, noBikeCount, scenarioA] "docks" false).Perm
        [fiveBikes, noBikeCount, scenarioA]
    ∧ (sortStations codePointCompare [fiveBikes, noBikeCount, scenarioA] "docks" false).Pairwise
        (fun a b => codePointCompare a.name b.name ≤ 0)
    ∧ sortStations codePointCompare [fiveBikes, noBikeCount, scenarioA] "docks" false
        = [noBikeCount, scenarioA, fiveBikes] :=
  have h := sortStations_by_name codePointCompare
    (fun a b => compareCodePoints_antisymm a.data b.data)
    (fun a b c => compareCodePoints_trans a.data b.data c.data)
    [fiveBikes, noBikeCount, scenarioA] "docks"
  ⟨h.1, h.2.1, by decide⟩

/-! ## `haversine` -/

theorem haversine_self (lat lon : ℝ) : haversine lat lon lat lon = 0 := by
  simp [haversine]

theorem haversine_comm (lat1 lon1 lat2 lon2 : ℝ) :
    haversine lat1 lon1 lat2 lon2 = haversine lat2 lon2 lat1 lon1 := by
  have hlat : (lat1 - lat2) * Real.pi / 180 / 2 = -((lat2 - lat1) * Real.pi / 180 / 2) := by ring
  have hlon : (lon1 - lon2) * Real.pi / 180 / 2 = -((lon2 - lon1) * Real.pi / 180 / 2) := by ring
  simp only [haversine]
  rw [hlat, hlon, Real.sin_neg, Real.sin_neg, neg_sq, neg_sq,
    mul_comm (Real.cos (lat2 * Real.pi / 180)) (Real.cos (lat1 * Real.pi / 180))]

/-- C8: `haversine` is 0 between a point and itself and does not depend on the order of the two
points. -/
theorem haversine_self_and_symm (lat1 lon1 lat2 lon2 : ℝ) :
    haversine lat1 lon1 lat1 lon1 = 0
    ∧ haversine lat1 lon1 lat2 lon2 = haversine lat2 lon2 lat1 lon1 :=
  ⟨haversine_self lat1 lon1, haversine_comm lat1 lon1 lat2 lon2⟩

theorem haversine_pos_of_lat (lat : ℝ) (h0 : 0 < lat) (h1 : lat < 360) :
    0 < haversine 0 0 lat 0 := by
  have hx0 : 0 < lat * Real.pi / 180 / 2 := by positivity
  have hx1 : lat * Real.pi / 180 / 2 < Real.pi := by
    have := Real.pi_pos
    nlinarith
  have hsin : 0 < Real.sin (lat * Real.pi / 180 / 2) := Real.sin_pos_of_pos_of_lt_pi hx0 hx1
  have ha : 0 < Real.sin (lat * Real.pi / 180 / 2) ^ 2 := by positivity
  simp only [haversine, sub_zero, zero_mul, zero_div, Real.cos_zero, Real.sin_zero, one_mul]
  have hs : 0 < Real.sqrt (Real.sin (lat * Real.pi / 180 / 2) ^ 2 +
      Real.cos (lat * Real.pi / 180) * 0 ^ 2) := by
    apply Real.sqrt_pos.2
    simpa using ha
  have := Real.arcsin_pos.2 hs
  positivity

/-! ## The nearest list of `searchAddress` -/

/-- C5 at a failing input: the batch holds two snapshots of station 7; the nearest list of
`static/app.js` has two entries, both of station 7, wherever the searched point is. -/
theorem searchAddress_duplicate_ids (lat lon : ℝ) :
    (searchAddress lat lon [sevenFirst, sevenLater]).map (fun n => n.station.station_id)
      = [7, 7] := by
  simp only [searchAddress, JsArray.slice0, JsArray.sort, List.map_cons, List.map_nil,
    List.insertionSort, List.orderedInsert]
  split_ifs <;> simp [sevenFirst, sevenLater]

/-- The uniqueness filter of `old_files/static/app.js` keeps no two entries of one station. -/
theorem pairwise_first_occurrences {α : Type} (key : α → Nat) (a : List α) :
    ((a.enum.filter (fun iv =>
        JsArray.findIndexIs (fun t => decide (key t = key iv.2)) a iv.1)).map
      Prod.snd).Pairwise (fun x y => key x ≠ key y) := by
  rw [List.pairwise_map]
  have h1 : a.enum.Pairwise (fun x y => x.1 < y.1) := by
    have h := List.pairwise_lt_range a.length
    rw [← List.enum_map_fst, List.pairwise_map] at h
    exact h
  refine (List.Pairwise.and_mem.1 (h1.sublist (List.filter_sublist _))).imp ?_
  rintro ⟨i, v⟩ ⟨j, w⟩ ⟨hx, hy, hlt⟩ heq
  have hx := (List.mem_filter.1 hx).1
  have hq := (List.mem_filter.1 hy).2
  simp only [JsArray.findIndexIs, decide_eq_true_eq] at hq
  obtain ⟨hq1, hq2⟩ := hq
  have h2 := ((List.findIdx_eq hq2).1 hq1).2 i hlt
  have hv := List.mem_enum_iff_getElem?.1 hx
  obtain ⟨hi, hvi⟩ := List.getElem?_eq_some.1 hv
  simp only at hvi heq
  rw [hvi] at h2
  simp at h2
  exact h2 heq

/-- In `old_files/static/app.js` the nearest list never holds two entries of one station. -/
theorem Old.searchAddress_ids_nodup (lat lon : ℝ) (stationsData : List Station) :
    ((Old.searchAddress lat lon stationsData).map (fun n => n.station.station_id)).Nodup := by
  have hc : ((Old.candidates lat lon stationsData).map (fun n => n.station.station_id)).Nodup := by
    unfold Old.candidates
    exact List.pairwise_map.2
      (pairwise_first_occurrences (fun n : Nearest => n.station.station_id) _)
  have hs := ((JsArray.sort_perm (fun a b : Nearest => jsSub a.distance b.distance)
    (Old.candidates lat lon stationsData)).map (fun n => n.station.station_id)).nodup_iff.2 hc
  exact hs.sublist ((List.take_sublist 5 _).map _)

/-- C6 at a failing input: the only snapshot of the batch has no coordinates, and it is the nearest
list, with distance `NaN`, in both versions of `searchAddress`. -/
theorem searchAddress_missing_coordinates (lat lon : ℝ) :
    searchAddress lat lon [noCoordinates] = [{ station := noCoordinates, distance := none }]
    ∧ Old.searchAddress lat lon [noCoordinates]
      = [{ station := noCoordinates, distance := none }]
    ∧ noCoordinates.lat = none ∧ noCoordinates.lon = none := by
  refine ⟨?_, ?_, rfl, rfl⟩
  · simp [searchAddress, JsArray.slice0, JsArray.sort, haversineOf, noCoordinates]
  · simp [Old.searchAddress, Old.candidates, JsArray.slice0, JsArray.sort, haversineOf,
      noCoordinates, JsArray.findIndexIs, List.enum, List.findIdx_cons]

/-- The first `L` entries of the candidates sorted by distance, all distances being numbers. -/
theorem nearest_of_valid (L : Nat) (c : List Nearest)
    (hvalid : ∀ n ∈ c, ∃ d : ℝ, n.distance = some d) :
    (JsArray.slice0 L (JsArray.sort (fun a b : Nearest => jsSub a.distance b.distance) c)).Pairwise
        Nearest.le
    ∧ (∃ rest : List Nearest,
        (JsArray.slice0 L (JsArray.sort (fun a b : Nearest => jsSub a.distance b.distance) c)
          ++ rest).Perm c
        ∧ ∀ n ∈ JsArray.slice0 L
              (JsArray.sort (fun a b : Nearest => jsSub a.distance b.distance) c),
            ∀ m ∈ rest, Nearest.le n m)
    ∧ (JsArray.slice0 L (JsArray.sort (fun a b : Nearest => jsSub a.distance b.distance) c)).length
        = min L c.length := by
  obtain ⟨h1, h2, -⟩ := JsArray.sort_spec (fun a b : Nearest => jsSub a.distance b.distance) c
      Nearest.le
      (by
        intro a ha b hb
        obtain ⟨x, hx⟩ := hvalid a ha
        obtain ⟨y, hy⟩ := hvalid b hb
        simp [sortCompare, jsSub, Nearest.le, hx, hy])
      (by
        intro a ha b hb
        obtain ⟨x, hx⟩ := hvalid a ha
        obtain ⟨y, hy⟩ := hvalid b hb
        simpa [Nearest.le, hx, hy] using le_total x y)
      (by
        intro a ha b hb d hd
        obtain ⟨x, hx⟩ := hvalid a ha
        obtain ⟨y, hy⟩ := hvalid b hb
        obtain ⟨z, hz⟩ := hvalid d hd
        simpa [Nearest.le, hx, hy, hz] using fun h1 h2 => le_trans h1 h2)
  refine ⟨h2.sublist (List.take_sublist _ _), ⟨List.drop L
      (JsArray.sort (fun a b : Nearest => jsSub a.distance b.distance) c), ?_, ?_⟩, ?_⟩
  · simpa [JsArray.slice0] using h1
  · intro n hn m hm
    exact List.Sorted.rel_of_mem_take_of_mem_drop h2 hn hm
  · simp [JsArray.slice0, h1.length_eq]

theorem Old.candidates_sublist (lat lon : ℝ) (stationsData : List Station) :
    (Old.candidates lat lon stationsData).Sublist
      (stationsData.map (fun s => { station := s, distance := haversineOf lat lon s })) := by
  unfold Old.candidates
  have h := (List.filter_sublist (p := fun iv : Nat × Nearest =>
      JsArray.findIndexIs (fun t => decide (t.station.station_id = iv.2.station.station_id))
        (stationsData.map (fun s => ({ station := s, distance := haversineOf lat lon s } : Nearest)))
        iv.1)
      (stationsData.map
        (fun s => ({ station := s, distance := haversineOf lat lon s } : Nearest))).enum).map Prod.snd
  simpa [List.enum_map_snd] using h

theorem haversineOf_of_valid (lat lon : ℝ) (s : Station) (h : s.lat ≠ none ∧ s.lon ≠ none) :
    ∃ d : ℝ, haversineOf lat lon s = some d := by
  obtain ⟨h1, h2⟩ := h
  cases hl : s.lat with
  | none => exact absurd hl h1
  | some x =>
    cases hm : s.lon with
    | none => exact absurd hm h2
    | some y => exact ⟨haversine lat lon x y, by simp [haversineOf, hl, hm]⟩

/-- Every element of a list has an element with its key among those kept by the uniqueness
filter. -/
theorem exists_mem_first_occurrences {α : Type} (key : α → Nat) (a : List α) (x : α)
    (hx : x ∈ a) :
    ∃ y ∈ (a.enum.filter (fun iv =>
        JsArray.findIndexIs (fun t => decide (key t = key iv.2)) a iv.1)).map Prod.snd,
      key y = key x := by
  have hex : ∃ t ∈ a, (fun t => decide (key t = key x)) t = true := ⟨x, hx, by simp⟩
  have hi : a.findIdx (fun t => decide (key t = key x)) < a.length :=
    List.findIdx_lt_length_of_exists hex
  have hy : key (a[a.findIdx (fun t => decide (key t = key x))]) = key x := by
    have h := List.findIdx_getElem (w := hi)
    simpa using h
  refine ⟨a[a.findIdx (fun t => decide (key t = key x))], ?_, hy⟩
  refine List.mem_map.2 ⟨(a.findIdx (fun t => decide (key t = key x)),
    a[a.findIdx (fun t => decide (key t = key x))]), ?_, rfl⟩
  refine List.mem_filter.2 ⟨?_, ?_⟩
  · rw [List.mem_enum_iff_getElem?]
    exact List.getElem?_eq_getElem hi
  · have hfun : (fun t => decide (key t = key (a[a.findIdx (fun t => decide (key t = key x))])))
        = (fun t => decide (key t = key x)) := by
      funext t
      rw [hy]
    simp only [JsArray.findIndexIs, hfun, decide_eq_true_eq]
    exact ⟨trivial, hi⟩

/-- In `old_files/static/app.js` the candidates are one entry for each distinct station id of the
batch. -/
theorem Old.candidates_ids_perm (lat lon : ℝ) (stationsData : List Station) :
    ((Old.candidates lat lon stationsData).map (fun n => n.station.station_id)).Perm
      (stationsData.map (fun s => s.station_id)).dedup := by
  have hnodup : ((Old.candidates lat lon stationsData).map
      (fun n => n.station.station_id)).Nodup := by
    unfold Old.candidates
    exact List.pairwise_map.2
      (pairwise_first_occurrences (fun n : Nearest => n.station.station_id) _)
  refine (List.perm_ext_iff_of_nodup hnodup (List.nodup_dedup _)).2 ?_
  intro k
  rw [List.mem_dedup]
  constructor
  · intro hk
    obtain ⟨n, hn, rfl⟩ := List.mem_map.1 hk
    have hn' := (Old.candidates_sublist lat lon stationsData).subset hn
    obtain ⟨s, hs, rfl⟩ := List.mem_map.1 hn'
    exact List.mem_map.2 ⟨s, hs, rfl⟩
  · intro hk
    obtain ⟨s, hs, rfl⟩ := List.mem_map.1 hk
    have hmem : ({ station := s, distance := haversineOf lat lon s } : Nearest) ∈
        stationsData.map (fun s => ({ station := s, distance := haversineOf lat lon s } : Nearest)) :=
      List.mem_map.2 ⟨s, hs, rfl⟩
    obtain ⟨y, hy, hkey⟩ := exists_mem_first_occurrences
      (fun n : Nearest => n.station.station_id) _ _ hmem
    exact List.mem_map.2 ⟨y, hy, hkey⟩

/-- The nearest list of `old_files/static/app.js` on a batch whose snapshots all have numeric
coordinates: in non-decreasing order of distance, every candidate left out at least as far as
every entry returned, and as many entries as the smaller of 5 and the number of distinct stations
of the batch, the candidates being one snapshot of each station. -/
theorem Old.searchAddress_dedup_nearest_of_valid (lat lon : ℝ) (stationsData : List Station)
    (hvalid : ∀ s ∈ stationsData, s.lat ≠ none ∧ s.lon ≠ none) :
    (Old.searchAddress lat lon stationsData).Pairwise Nearest.le
    ∧ (∃ rest : List Nearest,
        (Old.searchAddress lat lon stationsData ++ rest).Perm
          (Old.candidates lat lon stationsData)
        ∧ ∀ n ∈ Old.searchAddress lat lon stationsData, ∀ m ∈ rest, Nearest.le n m)
    ∧ (Old.searchAddress lat lon stationsData).length
        = min 5 (stationsData.map (fun s => s.station_id)).dedup.length
    ∧ (Old.candidates lat lon stationsData).Sublist
        (stationsData.map (fun s => { station := s, distance := haversineOf lat lon s })) := by
  have hmap : ∀ n ∈ stationsData.map
      (fun s => ({ station := s, distance := haversineOf lat lon s } : Nearest)),
      ∃ d : ℝ, n.distance = some d := by
    intro n hn
    obtain ⟨s, hs, rfl⟩ := List.mem_map.1 hn
    exact haversineOf_of_valid lat lon s (hvalid s hs)
  obtain ⟨h1, h2, h3⟩ := nearest_of_valid 5 (Old.candidates lat lon stationsData)
    (fun n hn => hmap n ((Old.candidates_sublist lat lon stationsData).subset hn))
  have hlen : (Old.candidates lat lon stationsData).length
      = (stationsData.map (fun s => s.station_id)).dedup.length := by
    have h := (Old.candidates_ids_perm lat lon stationsData).length_eq
    simpa using h
  refine ⟨h1, h2, ?_, Old.candidates_sublist lat lon stationsData⟩
  rw [← hlen]
  exact h3

/-- The nearest list of `static/app.js` on a batch whose snapshots all have numeric coordinates:
in non-decreasing order of distance, every snapshot left out at least as far as every entry
returned, and as many entries as the smaller of 3 and the number of snapshots of the batch,
repeated stations included. -/
theorem searchAddress_nearest_of_valid (lat lon : ℝ) (stationsData : List Station)
    (hvalid : ∀ s ∈ stationsData, s.lat ≠ none ∧ s.lon ≠ none) :
    (searchAddress lat lon stationsData).Pairwise Nearest.le
    ∧ (∃ rest : List Nearest,
        (searchAddress lat lon stationsData ++ rest).Perm
          (stationsData.map (fun s => { station := s, distance := haversineOf lat lon s }))
        ∧ ∀ n ∈ searchAddress lat lon stationsData, ∀ m ∈ rest, Nearest.le n m)
    ∧ (searchAddress lat lon stationsData).length = min 3 stationsData.length := by
  have hmap : ∀ n ∈ stationsData.map
      (fun s => ({ station := s, distance := haversineOf lat lon s } : Nearest)),
      ∃ d : ℝ, n.distance = some d := by
    intro n hn
    obtain ⟨s, hs, rfl⟩ := List.mem_map.1 hn
    exact haversineOf_of_valid lat lon s (hvalid s hs)
  have h := nearest_of_valid 3 _ hmap
  simpa [searchAddress] using h

/-- C7 at a failing input: the batch holds two snapshots of the one station 7, both with numeric
coordinates, so there is one candidate and the nearest list should have min(3, 1) = 1 entry; the
nearest list of `static/app.js` has 2 entries wherever the searched point is, while that of
`old_files/static/app.js` has 1. -/
theorem searchAddress_length_with_duplicate (lat lon : ℝ) :
    (searchAddress lat lon [sevenFirst, sevenLater]).length = 2
    ∧ ([sevenFirst, sevenLater].map (fun s => s.station_id)).dedup.length = 1
    ∧ (Old.searchAddress lat lon [sevenFirst, sevenLater]).length = 1
    ∧ (∀ s ∈ [sevenFirst, sevenLater], s.lat ≠ none ∧ s.lon ≠ none) := by
  have hv : ∀ s ∈ [sevenFirst, sevenLater], s.lat ≠ none ∧ s.lon ≠ none := by
    simp [sevenFirst, sevenLater]
  have hd : ([sevenFirst, sevenLater].map (fun s => s.station_id)).dedup.length = 1 := by decide
  refine ⟨?_, hd, ?_, hv⟩
  · rw [(searchAddress_nearest_of_valid lat lon _ hv).2.2]
    rfl
  · rw [(Old.searchAddress_dedup_nearest_of_valid lat lon _ hv).2.2.1, hd]
    rfl

/-! ## `computeGlobalHourlyAverage` -/

theorem getHours_lt (localTZA : Int → Int) (t : Int) : getHours localTZA t < 24 := by
  unfold getHours
  omega

theorem JsObject.mem_keys_iff_get {V : Type} (o : JsObject V) (k : Nat) :
    k ∈ o.map Prod.fst ↔ ∃ v, o.get k = some v := by
  induction o with
  | nil => simp [JsObject.get]
  | cons e rest ih =>
    obtain ⟨k0, v0⟩ := e
    by_cases h : k0 = k
    · simp [JsObject.get, h]
    · have h' : ¬ k = k0 := fun h2 => h h2.symm
      simp [JsObject.get, h, h', ← ih]

/-- One step of the inner `forEach`. -/
theorem byHour_step_get (o : JsObject (List Int)) (hour k : Nat) (value : Int) :
    (JsObject.set (JsObject.set o hour ((JsObject.get o hour).getD [])) hour
        ((JsObject.get (JsObject.set o hour ((JsObject.get o hour).getD [])) hour).getD []
          ++ [value])).get k
      = if hour = k then some ((JsObject.get o hour).getD [] ++ [value]) else o.get k := by
  rw [JsObject.get_set, JsObject.get_set, JsObject.get_set]
  by_cases h : hour = k <;> simp [h]

theorem byHour_eq_foldl (localTZA : Int → Int) (selectedMode : String) (stations : List Station) :
    byHour localTZA selectedMode stations
      = (allSamples stations).foldl (fun byHour h =>
          JsObject.set (JsObject.set byHour (getHours localTZA h.timestamp)
              ((JsObject.get byHour (getHours localTZA h.timestamp)).getD []))
            (getHours localTZA h.timestamp)
            ((JsObject.get (JsObject.set byHour (getHours localTZA h.timestamp)
              ((JsObject.get byHour (getHours localTZA h.timestamp)).getD []))
                (getHours localTZA h.timestamp)).getD []
              ++ [if selectedMode = "bikes" then h.num_bikes_available
                  else h.num_docks_available])) [] := by
  unfold byHour allSamples
  generalize ([] : JsObject (List Int)) = init
  induction stations generalizing init with
  | nil => rfl
  | cons s rest ih =>
    simp only [List.foldl_cons, List.flatMap_cons, List.foldl_append]
    exact ih _

theorem byHour_nodup (localTZA : Int → Int) (selectedMode : String) (stations : List Station) :
    ((byHour localTZA selectedMode stations).map Prod.fst).Nodup := by
  rw [byHour_eq_foldl]
  induction (allSamples stations) using List.reverseRecOn with
  | nil => simp
  | append_singleton l h ih =>
    rw [List.foldl_append]
    exact JsObject.nodup_keys_set _ _ _ (JsObject.nodup_keys_set _ _ _ ih)

/-- The array stored under an hour holds the values of the samples of that hour, in the order of
the input; an hour without sample has no property. -/
theorem byHour_get (localTZA : Int → Int) (selectedMode : String) (stations : List Station)
    (k : Nat) :
    (byHour localTZA selectedMode stations).get k
      = if samplesOfHour localTZA selectedMode stations k = [] then none
        else some (samplesOfHour localTZA selectedMode stations k) := by
  rw [byHour_eq_foldl]
  unfold samplesOfHour
  induction (allSamples stations) using List.reverseRecOn with
  | nil => simp [JsObject.get]
  | append_singleton l h ih =>
    rw [List.foldl_append]
    simp only [List.foldl_cons, List.foldl_nil, byHour_step_get]
    by_cases hk : getHours localTZA h.timestamp = k
    · subst hk
      rw [ih]
      simp only [if_true, List.filter_append, List.map_append]
      split_ifs with h1 <;> simp_all
    · simp only [hk, if_false, ih, List.filter_append, List.map_append]
      simp [hk]

theorem computeGlobalHourlyAverage_perm (localTZA : Int → Int) (selectedMode : String)
    (stations : List Station) :
    (computeGlobalHourlyAverage localTZA selectedMode stations).Perm
      ((byHour localTZA selectedMode stations).map (fun e =>
        ({ hour := e.1,
           avg := ((e.2.foldl (fun a b => a + b) 0 : Int) : ℚ) / (e.2.length : ℚ) } :
          HourlyPoint))) := by
  unfold computeGlobalHourlyAverage Object.entries
  exact (JsArray.sort_perm _ _).trans ((JsObject.ownEntries_perm _).map _)

theorem computeGlobalHourlyAverage_hours_perm (localTZA : Int → Int) (selectedMode : String)
    (stations : List Station) :
    ((computeGlobalHourlyAverage localTZA selectedMode stations).map (fun p => p.hour)).Perm
      ((byHour localTZA selectedMode stations).map Prod.fst) := by
  have h := (computeGlobalHourlyAverage_perm localTZA selectedMode stations).map (fun p => p.hour)
  simpa [List.map_map, Function.comp] using h

theorem samplesOfHour_ne_nil_iff (localTZA : Int → Int) (selectedMode : String)
    (stations : List Station) (k : Nat) :
    samplesOfHour localTZA selectedMode stations k ≠ [] ↔
      ∃ s ∈ stations, ∃ x ∈ s.history.getD [], getHours localTZA x.timestamp = k := by
  unfold samplesOfHour allSamples
  rw [Ne, List.map_eq_nil_iff, List.filter_eq_nil_iff]
  simp only [List.mem_flatMap, decide_eq_true_eq, not_forall, Classical.not_not]
  constructor
  · rintro ⟨x, ⟨s, hs, hx⟩, hk⟩
    exact ⟨s, hs, x, hx, hk⟩
  · rintro ⟨s, hs, x, hx, hk⟩
    exact ⟨x, ⟨s, hs, hx⟩, hk⟩

theorem mem_computeGlobalHourlyAverage_hours (localTZA : Int → Int) (selectedMode : String)
    (stations : List Station) (k : Nat) :
    k ∈ (computeGlobalHourlyAverage localTZA selectedMode stations).map (fun p => p.hour) ↔
      ∃ s ∈ stations, ∃ x ∈ s.history.getD [], getHours localTZA x.timestamp = k := by
  rw [(computeGlobalHourlyAverage_hours_perm localTZA selectedMode stations).mem_iff,
    JsObject.mem_keys_iff_get, byHour_get, ← samplesOfHour_ne_nil_iff localTZA selectedMode]
  by_cases h : samplesOfHour localTZA selectedMode stations k = [] <;> simp [h]

/-- C9: the hours returned by `computeGlobalHourlyAverage` are strictly increasing and at most 23;
an hour is returned exactly when some sample of some station falls in it, and the result is empty
exactly when there is no sample. -/
theorem computeGlobalHourlyAverage_hours (localTZA : Int → Int) (selectedMode : String)
    (stations : List Station) :
    ((computeGlobalHourlyAverage localTZA selectedMode stations).map (fun p => p.hour)).Pairwise
        (fun a b => a < b)
    ∧ (∀ p ∈ computeGlobalHourlyAverage localTZA selectedMode stations, p.hour ≤ 23)
    ∧ (∀ k : Nat,
        k ∈ (computeGlobalHourlyAverage localTZA selectedMode stations).map (fun p => p.hour) ↔
          ∃ s ∈ stations, ∃ x ∈ s.history.getD [], getHours localTZA x.timestamp = k)
    ∧ (computeGlobalHourlyAverage localTZA selectedMode stations = [] ↔
        ∀ s ∈ stations, s.history.getD [] = []) := by
  have hmem := mem_computeGlobalHourlyAverage_hours localTZA selectedMode stations
  refine ⟨?_, ?_, hmem, ?_⟩
  · have hnodup : ((computeGlobalHourlyAverage localTZA selectedMode stations).map
        (fun p => p.hour)).Nodup :=
      (computeGlobalHourlyAverage_hours_perm localTZA selectedMode stations).nodup_iff.2
        (byHour_nodup localTZA selectedMode stations)
    have hle : (computeGlobalHourlyAverage localTZA selectedMode stations).Pairwise
        (fun a b => a.hour ≤ b.hour) := by
      unfold computeGlobalHourlyAverage
      refine (JsArray.sort_spec _ _ (fun a b : HourlyPoint => a.hour ≤ b.hour) ?_ ?_ ?_).2.1
      · intro a _ b _
        simp only [sortCompare, Option.getD_some]
        omega
      · intro a _ b _
        exact le_total _ _
      · intro a _ b _ c _ h1 h2
        exact le_trans h1 h2
    have hle' := (List.pairwise_map (f := fun p : HourlyPoint => p.hour)
      (R := fun a b => a ≤ b)).2 hle
    exact (hle'.and hnodup).imp (fun h => lt_of_le_of_ne h.1 h.2)
  · intro p hp
    obtain ⟨s, _, x, _, hx⟩ := (hmem p.hour).1 (List.mem_map.2 ⟨p, hp, rfl⟩)
    have := getHours_lt localTZA x.timestamp
    omega
  · constructor
    · intro h s hs
      by_contra hne
      obtain ⟨x, hx⟩ := List.exists_mem_of_ne_nil _ hne
      have := (hmem (getHours localTZA x.timestamp)).2 ⟨s, hs, x, hx, rfl⟩
      rw [h] at this
      simp at this
    · intro h
      by_contra hne
      obtain ⟨p, hp⟩ := List.exists_mem_of_ne_nil _ hne
      obtain ⟨s, hs, x, hx, _⟩ := (hmem p.hour).1 (List.mem_map.2 ⟨p, hp, rfl⟩)
      rw [h s hs] at hx
      simp at hx

theorem foldl_add_eq_sum (l : List Int) (a : Int) :
    l.foldl (fun a b => a + b) a = a + l.sum := by
  induction l generalizing a with
  | nil => simp
  | cons x t ih => simp [ih, add_assoc]

/-- C10: every point returned by `computeGlobalHourlyAverage` carries the sum of the selected
metric over all samples of its hour-of-day, of all stations and all dates, divided by their
number, which is at least 1. -/
theorem computeGlobalHourlyAverage_avg (localTZA : Int → Int) (selectedMode : String)
    (stations : List Station) (p : HourlyPoint)
    (hp : p ∈ computeGlobalHourlyAverage localTZA selectedMode stations) :
    1 ≤ (samplesOfHour localTZA selectedMode stations p.hour).length
    ∧ p.avg = (((samplesOfHour localTZA selectedMode stations p.hour).sum : Int) : ℚ)
        / ((samplesOfHour localTZA selectedMode stations p.hour).length : ℚ) := by
  have hp' := (computeGlobalHourlyAverage_perm localTZA selectedMode stations).mem_iff.1 hp
  obtain ⟨⟨k, vals⟩, he, rfl⟩ := List.mem_map.1 hp'
  have hget := (JsObject.mem_iff_get _ (byHour_nodup localTZA selectedMode stations) k vals).1 he
  rw [byHour_get] at hget
  by_cases hnil : samplesOfHour localTZA selectedMode stations k = []
  · simp [hnil] at hget
  · simp only [hnil, if_false, Option.some.injEq] at hget
    subst hget
    refine ⟨?_, ?_⟩
    · exact List.length_pos.2 hnil
    · simp [foldl_add_eq_sum]

/-- C10 on three samples 2, 4, 6 taken in the first hour of three different days: the average
is 4. -/
theorem computeGlobalHourlyAverage_avg_witness :
    computeGlobalHourlyAverage (fun _ => 0) "bikes" [threeSamples] = [{ hour := 0, avg := 4 }]
    ∧ samplesOfHour (fun _ => 0) "bikes" [threeSamples] 0 = [2, 4, 6]
    ∧ (1 ≤ (samplesOfHour (fun _ => 0) "bikes" [threeSamples] 0).length
      ∧ (4 : ℚ) = (((samplesOfHour (fun _ => 0) "bikes" [threeSamples] 0).sum : Int) : ℚ)
        / ((samplesOfHour (fun _ => 0) "bikes" [threeSamples] 0).length : ℚ)) :=
  have heval : computeGlobalHourlyAverage (fun _ => 0) "bikes" [threeSamples]
      = [{ hour := 0, avg := 4 }] := by
    simp [computeGlobalHourlyAverage, byHour, threeSamples, getHours, JsObject.set, JsObject.get,
      Object.entries, JsObject.ownEntries, isArrayIndex, JsArray.sort]
    norm_num
  ⟨heval, by decide,
    computeGlobalHourlyAverage_avg (fun _ => 0) "bikes" [threeSamples] { hour := 0, avg := 4 }
      (by rw [heval]; exact List.mem_singleton.2 rfl)⟩

/-- C9 on the same station: one point, for hour 0. -/
theorem computeGlobalHourlyAverage_hours_witness :
    (computeGlobalHourlyAverage (fun _ => 0) "bikes" [threeSamples]).map (fun p => p.hour) = [0]
    ∧ ((computeGlobalHourlyAverage (fun _ => 0) "bikes" [threeSamples]).map
        (fun p => p.hour)).Pairwise (fun a b => a < b) :=
  ⟨by decide, (computeGlobalHourlyAverage_hours (fun _ => 0) "bikes" [threeSamples]).1⟩

/-! ## `loadStations` -/

/-- C11, as stated, fails: two calls, the response of the second request arrives first and the
response of the first request last; `stationsData` ends as the response of the earlier request. -/
theorem loadStations_stale_response :
    (run (twoResponses [scenarioA] [scenarioB]) Page.start
        [Event.call, Event.call, Event.resolve 1, Event.resolve 0]).map (fun p => p.stationsData)
      = some [scenarioA]
    ∧ twoResponses [scenarioA] [scenarioB] 1 = some [scenarioB]
    ∧ [scenarioA] ≠ [scenarioB] := by
  decide

theorem stationsData_resume (p : Page) (request : Nat) (data : List Station) :
    (loadStations_resume p request (some data)).stationsData = data := rfl

/-- C11, amended: the response that arrives last is the stored batch.  For two requests issued in
sequence, `stationsData` ends as the response of the later request when the responses arrive in
the order of the requests (the second call made before or after the first response), and as the
response of the earlier request when they arrive in the opposite order; in general the arrival of
a successful response of a pending request stores that response. -/
theorem loadStations_last_response (first second : List Station) :
    (run (twoResponses first second) Page.start
        [Event.call, Event.call, Event.resolve 0, Event.resolve 1]).map (fun p => p.stationsData)
      = some second
    ∧ (run (twoResponses first second) Page.start
        [Event.call, Event.resolve 0, Event.call, Event.resolve 1]).map (fun p => p.stationsData)
      = some second
    ∧ (run (twoResponses first second) Page.start
        [Event.call, Event.call, Event.resolve 1, Event.resolve 0]).map (fun p => p.stationsData)
      = some first
    ∧ (∀ (response : Nat → Option (List Station)) (p : Page) (request : Nat)
        (data : List Station), request ∈ p.pending → response request = some data →
        (step response p (Event.resolve request)).map (fun q => q.stationsData) = some data) := by
  refine ⟨?_, ?_, ?_, ?_⟩
  · simp [run, step, loadStations_call, loadStations_resume, Page.start, twoResponses]
  · simp [run, step, loadStations_call, loadStations_resume, Page.start, twoResponses]
  · simp [run, step, loadStations_call, loadStations_resume, Page.start, twoResponses]
  · intro response p request data hmem hresp
    simp [step, hmem, hresp, loadStations_resume]

/-- C11, amended, on two one-station responses. -/
theorem loadStations_last_response_witness :
    (run (twoResponses [scenarioA] [scenarioB]) Page.start
        [Event.call, Event.call, Event.resolve 0, Event.resolve 1]).map (fun p => p.stationsData)
      = some [scenarioB]
    ∧ (step (twoResponses [scenarioA] [scenarioB])
        { stationsData := [], loader := true, issued := 2, pending := [0, 1] }
        (Event.resolve 1)).map (fun q => q.stationsData) = some [scenarioB] :=
  ⟨(loadStations_last_response [scenarioA] [scenarioB]).1,
   (loadStations_last_response [scenarioA] [scenarioB]).2.2.2 _
     { stationsData := [], loader := true, issued := 2, pending := [0, 1] } 1 [scenarioB]
     (by decide) (by decide)⟩

/-! ## The sort policy of `updateSidebar` -/

/-- Sorting with no active filter, for a consistent name comparison: a permutation in
non-decreasing order of name. -/
theorem sortStations_name_of_consistent (localeCompare : String → String → Int)
    (hanti : ∀ a b, 0 < localeCompare a b ↔ localeCompare b a < 0)
    (htrans : ∀ a b c, localeCompare a b ≤ 0 → localeCompare b c ≤ 0 → localeCompare a c ≤ 0)
    (stations : List Station) (mode : String) :
    (sortStations localeCompare stations mode false).Perm stations
    ∧ (sortStations localeCompare stations mode false).Pairwise
        (fun a b => localeCompare a.name b.name ≤ 0) := by
  have hsort : sortStations localeCompare stations mode false
      = JsArray.sort (fun a b : Station => some (localeCompare a.name b.name)) stations := by
    simp [sortStations]
  obtain ⟨h1, h2, -⟩ := JsArray.sort_spec
      (fun a b : Station => some (localeCompare a.name b.name)) stations
      (fun a b => localeCompare a.name b.name ≤ 0)
      (fun a _ b _ => by simp [sortCompare])
      (fun a _ b _ => by
        by_cases h : localeCompare a.name b.name ≤ 0
        · exact Or.inl h
        · exact Or.inr (le_of_lt ((hanti a.name b.name).1 (by omega))))
      (fun a _ b _ c _ => htrans a.name b.name c.name)
  rw [hsort]
  exact ⟨h1, h2⟩

/-- The branch of `updateSidebar` taken when `hasFilter` holds. -/
theorem updateSidebar_of_hasFilter (toLowerCase : String → String)
    (localeCompare : String → String → Int) (stationsData : List Station) (selectedMode : String)
    (minBikes minDocks : Int) (area : String)
    (h : 0 < minBikes ∨ 0 < minDocks ∨ trim (toLowerCase area) ≠ "") :
    updateSidebar toLowerCase localeCompare stationsData selectedMode minBikes minDocks area none
      = sortStations localeCompare
          (filtered toLowerCase (uniqueStations stationsData) minBikes minDocks area)
          selectedMode true := by
  have hf : (decide (minBikes > 0) || decide (minDocks > 0)
      || decide (trim (toLowerCase area) ≠ "")) = true := by
    rcases h with h | h | h <;> simp [h]
  simp only [updateSidebar, sortStations, hf, if_true]
  simp

/-- The branch of `updateSidebar` taken when `hasFilter` does not hold. -/
theorem updateSidebar_of_not_hasFilter (toLowerCase : String → String)
    (localeCompare : String → String → Int) (stationsData : List Station) (selectedMode : String)
    (minBikes minDocks : Int) (area : String)
    (h : ¬ (0 < minBikes ∨ 0 < minDocks ∨ trim (toLowerCase area) ≠ "")) :
    updateSidebar toLowerCase localeCompare stationsData selectedMode minBikes minDocks area none
      = sortStations localeCompare (uniqueStations stationsData) selectedMode false := by
  simp only [not_or, not_lt, ne_eq, Classical.not_not] at h
  obtain ⟨hb, hd, ht⟩ := h
  have hb' : ¬ minBikes > 0 := by omega
  have hd' : ¬ minDocks > 0 := by omega
  simp [updateSidebar, sortStations, hb', hd', ht]

/-- C12, as stated, fails: with `minBikes = -1`, and also with a blank as area, a criterion differs
from its default and yet the list is in alphabetical order, station "A" with 0 bikes before
station "B" with 5. -/
theorem updateSidebar_nondefault_alphabetical :
    updateSidebar asciiLowerCase codePointCompare [scenarioB, scenarioA] "bikes" (-1) 0 "" none
      = [scenarioA, scenarioB]
    ∧ specActiveFilter (-1) 0 "" = true
    ∧ updateSidebar asciiLowerCase codePointCompare [scenarioB, scenarioA] "bikes" 0 0 " " none
      = [scenarioA, scenarioB]
    ∧ specActiveFilter 0 0 " " = true
    ∧ orZero scenarioA.num_bikes_available < orZero scenarioB.num_bikes_available := by
  decide

/-- C12, amended: with no station selected, `updateSidebar` displays the filtered snapshots sorted
with the availability comparator of the selected mode (a permutation in non-increasing order of
that count when every filtered snapshot carries it) if and only if `minBikes > 0` or
`minDocks > 0` or the lower-cased, trimmed area is not empty; otherwise it displays the
deduplicated batch in non-decreasing order of name.  `localeCompare` is any consistent
comparison. -/
theorem updateSidebar_order (toLowerCase : String → String)
    (localeCompare : String → String → Int)
    (hanti : ∀ a b, 0 < localeCompare a b ↔ localeCompare b a < 0)
    (htrans : ∀ a b c, localeCompare a b ≤ 0 → localeCompare b c ≤ 0 → localeCompare a c ≤ 0)
    (stationsData : List Station) (selectedMode : String)
    (minBikes minDocks : Int) (area : String) :
    ((0 < minBikes ∨ 0 < minDocks ∨ trim (toLowerCase area) ≠ "") →
      updateSidebar toLowerCase localeCompare stationsData selectedMode minBikes minDocks area none
        = sortStations localeCompare
            (filtered toLowerCase (uniqueStations stationsData) minBikes minDocks area)
            selectedMode true
      ∧ ((∀ s ∈ filtered toLowerCase (uniqueStations stationsData) minBikes minDocks area,
            ∃ v : Int, (if selectedMode = "bikes" then s.num_bikes_available
              else s.num_docks_available) = some v) →
          (updateSidebar toLowerCase localeCompare stationsData selectedMode minBikes minDocks
              area none).Perm
            (filtered toLowerCase (uniqueStations stationsData) minBikes minDocks area)
          ∧ (updateSidebar toLowerCase localeCompare stationsData selectedMode minBikes minDocks
              area none).Pairwise (fun a b =>
            orZero (if selectedMode = "bikes" then b.num_bikes_available
              else b.num_docks_available)
            ≤ orZero (if selectedMode = "bikes" then a.num_bikes_available
              else a.num_docks_available))))
    ∧ (¬ (0 < minBikes ∨ 0 < minDocks ∨ trim (toLowerCase area) ≠ "") →
      updateSidebar toLowerCase localeCompare stationsData selectedMode minBikes minDocks area none
        = sortStations localeCompare (uniqueStations stationsData) selectedMode false
      ∧ (updateSidebar toLowerCase localeCompare stationsData selectedMode minBikes minDocks
          area none).Perm (uniqueStations stationsData)
      ∧ (updateSidebar toLowerCase localeCompare stationsData selectedMode minBikes minDocks
          area none).Pairwise (fun a b => localeCompare a.name b.name ≤ 0)) := by
  constructor
  · intro h
    have heq := updateSidebar_of_hasFilter toLowerCase localeCompare stationsData selectedMode
      minBikes minDocks area h
    refine ⟨heq, fun hpresent => ?_⟩
    rw [heq]
    obtain ⟨h1, h2, -⟩ := sortStations_desc_of_present localeCompare _ selectedMode hpresent
    exact ⟨h1, h2⟩
  · intro h
    have heq := updateSidebar_of_not_hasFilter toLowerCase localeCompare stationsData selectedMode
      minBikes minDocks area h
    rw [heq]
    obtain ⟨h1, h2⟩ := sortStations_name_of_consistent localeCompare hanti htrans
      (uniqueStations stationsData) selectedMode
    exact ⟨rfl, h1, h2⟩

/-- C12, amended, on the batch of the filter scenario: with `minDocks = 1` the list is sorted by
availability, with `minBikes = -1` by name. -/
theorem updateSidebar_order_witness :
    updateSidebar asciiLowerCase codePointCompare [scenarioB, scenarioA] "docks" 0 1 "" none
      = sortStations codePointCompare
          (filtered asciiLowerCase (uniqueStations [scenarioB, scenarioA]) 0 1 "") "docks" true
    ∧ (updateSidebar asciiLowerCase codePointCompare [scenarioB, scenarioA] "bikes" (-1) 0 ""
        none).Pairwise (fun a b => codePointCompare a.name b.name ≤ 0) :=
  ⟨((updateSidebar_order asciiLowerCase codePointCompare
      (fun a b => compareCodePoints_antisymm a.data b.data)
      (fun a b c => compareCodePoints_trans a.data b.data c.data)
      [scenarioB, scenarioA] "docks" 0 1 "").1 (Or.inr (Or.inl (by decide)))).1,
   ((updateSidebar_order asciiLowerCase codePointCompare
      (fun a b => compareCodePoints_antisymm a.data b.data)
      (fun a b c => compareCodePoints_trans a.data b.data c.data)
      [scenarioB, scenarioA] "bikes" (-1) 0 "").2 (by decide)).2.2⟩

/-! ## The domain of `haversine` -/

theorem haversine_eq (lat1 lon1 lat2 lon2 : ℝ) :
    haversine lat1 lon1 lat2 lon2
      = 6371 * 2 * Real.arcsin (Real.sqrt (haversine_a lat1 lon1 lat2 lon2)) := rfl

theorem cos_radians_nonneg (lat : ℝ) (h0 : -90 ≤ lat) (h1 : lat ≤ 90) :
    0 ≤ Real.cos (lat * Real.pi / 180) := by
  have hpi := Real.pi_pos
  apply Real.cos_nonneg_of_neg_pi_div_two_le_of_le
  · nlinarith
  · nlinarith

/-- The sum of the haversine formula never exceeds 1 when both cosines are non-negative. -/
theorem haversine_sum_le_one (p q l : ℝ) (hp : 0 ≤ Real.cos p) (hq : 0 ≤ Real.cos q) :
    Real.sin ((q - p) / 2) ^ 2 + Real.cos p * Real.cos q * Real.sin l ^ 2 ≤ 1 := by
  have hl : Real.sin l ^ 2 ≤ 1 := Real.sin_sq_le_one l
  have hl0 : 0 ≤ Real.sin l ^ 2 := sq_nonneg _
  have hpq : 0 ≤ Real.cos p * Real.cos q := mul_nonneg hp hq
  have h1 : Real.cos p * Real.cos q * Real.sin l ^ 2 ≤ Real.cos p * Real.cos q := by
    nlinarith
  have h2 : Real.sin ((q - p) / 2) ^ 2 = 1 / 2 - Real.cos (q - p) / 2 := by
    rw [Real.sin_sq_eq_half_sub]
    congr 2
    ring_nf
  have h3 : Real.cos (q - p) = Real.cos q * Real.cos p + Real.sin q * Real.sin p :=
    Real.cos_sub q p
  have h4 : Real.cos (q + p) = Real.cos q * Real.cos p - Real.sin q * Real.sin p :=
    Real.cos_add q p
  have h5 : Real.cos (q + p) ≤ 1 := Real.cos_le_one _
  rw [h2, h3]
  nlinarith

/-- C13: for latitudes between -90 and 90 degrees and any longitudes, the argument `a` of the
square root in `haversine` lies in [0, 1], so does its square root, the argument of `asin`, and
the distance returned lies between 0 and 6371 π. -/
theorem haversine_in_domain (lat1 lon1 lat2 lon2 : ℝ)
    (h1 : -90 ≤ lat1 ∧ lat1 ≤ 90) (h2 : -90 ≤ lat2 ∧ lat2 ≤ 90) :
    0 ≤ haversine_a lat1 lon1 lat2 lon2
    ∧ haversine_a lat1 lon1 lat2 lon2 ≤ 1
    ∧ 0 ≤ Real.sqrt (haversine_a lat1 lon1 lat2 lon2)
    ∧ Real.sqrt (haversine_a lat1 lon1 lat2 lon2) ≤ 1
    ∧ haversine lat1 lon1 lat2 lon2
        = 6371 * 2 * Real.arcsin (Real.sqrt (haversine_a lat1 lon1 lat2 lon2))
    ∧ 0 ≤ haversine lat1 lon1 lat2 lon2
    ∧ haversine lat1 lon1 lat2 lon2 ≤ 6371 * Real.pi := by
  have hc1 := cos_radians_nonneg lat1 h1.1 h1.2
  have hc2 := cos_radians_nonneg lat2 h2.1 h2.2
  have ha0 : 0 ≤ haversine_a lat1 lon1 lat2 lon2 := by
    unfold haversine_a
    positivity
  have ha1 : haversine_a lat1 lon1 lat2 lon2 ≤ 1 := by
    have h := haversine_sum_le_one (lat1 * Real.pi / 180) (lat2 * Real.pi / 180)
      ((lon2 - lon1) * Real.pi / 180 / 2) hc1 hc2
    have harg : (lat2 * Real.pi / 180 - lat1 * Real.pi / 180) / 2
        = (lat2 - lat1) * Real.pi / 180 / 2 := by ring
    rw [harg] at h
    exact h
  have hs0 : 0 ≤ Real.sqrt (haversine_a lat1 lon1 lat2 lon2) := Real.sqrt_nonneg _
  have hs1 : Real.sqrt (haversine_a lat1 lon1 lat2 lon2) ≤ 1 := by
    rw [Real.sqrt_le_left zero_le_one]
    simpa using ha1
  have hasin0 : 0 ≤ Real.arcsin (Real.sqrt (haversine_a lat1 lon1 lat2 lon2)) :=
    Real.arcsin_nonneg.2 hs0
  have hasin1 := Real.arcsin_le_pi_div_two (Real.sqrt (haversine_a lat1 lon1 lat2 lon2))
  refine ⟨ha0, ha1, hs0, hs1, haversine_eq lat1 lon1 lat2 lon2, ?_, ?_⟩
  · rw [haversine_eq]
    positivity
  · rw [haversine_eq]
    nlinarith

/-- C13 between Paris and a point on the equator. -/
theorem haversine_in_domain_witness :
    ((-90 : ℝ) ≤ 48.85 ∧ (48.85 : ℝ) ≤ 90) ∧ ((-90 : ℝ) ≤ 0 ∧ (0 : ℝ) ≤ 90)
    ∧ haversine_a 48.85 2.35 0 200 ≤ 1
    ∧ haversine 48.85 2.35 0 200 ≤ 6371 * Real.pi :=
  have h1 : (-90 : ℝ) ≤ 48.85 ∧ (48.85 : ℝ) ≤ 90 := by constructor <;> norm_num
  have h2 : (-90 : ℝ) ≤ 0 ∧ (0 : ℝ) ≤ 90 := by constructor <;> norm_num
  ⟨h1, h2, (haversine_in_domain 48.85 2.35 0 200 h1 h2).2.1,
    (haversine_in_domain 48.85 2.35 0 200 h1 h2).2.2.2.2.2.2⟩

end Velib
